/-
Verification of the CARWatch log post-processing core (`carwatch.logs`:
`ParticipantLogs` / `StudyLogs`) against its design specification.

The log-processing implementation itself is not part of the source tree
available here (only its documentation and the example notebook that calls
it are), so the definitions below are modelled from the specification's
description of the Log Parser, ParticipantLog, and StudyLog components,
with naming details (e.g. the `android_version` metadata attribute) taken
from the example notebook, which is genuine repository code.
-/
import Mathlib

set_option maxRecDepth 4000

namespace Carwatch

/-- A timestamp: a calendar day (days since an arbitrary epoch) plus a
minute-of-day.  Calendar-day equality is equality of the `day` field,
independent of the time of day. -/
structure Timestamp where
  day : Nat
  minute : Nat
deriving DecidableEq, Repr

/-- Total sort key of a timestamp: minutes since the epoch. -/
def Timestamp.key (t : Timestamp) : Nat :=
  t.day * 1440 + t.minute

/-- Modelled from the spec: the enumerated action tags of an Event Record
(app lifecycle events, alarms, barcode scans, manual/evening confirmations,
the day-finished marker, the metadata report, and the self-reported
awakening). -/
inductive Action where
  | appOpened
  | appClosed
  | alarmScheduled
  | alarmTriggered
  | barcodeScanned
  | manualSampleConfirmed
  | eveningSampleConfirmed
  | dayFinished
  | metadataReported
  | awakeningSelfReport
deriving DecidableEq, Repr

/-- Modelled from the spec: an Event Record is one parsed log line with a
required timestamp, an action tag, and an `extras` mapping of string keys
to string values collected from the extra CSV columns. -/
structure EventRecord where
  timestamp : Timestamp
  action : Action
  extras : List (String × String)
deriving DecidableEq, Repr

/-- Modelled from the spec: a raw CSV data row as seen by the Log Parser.
A `none` timestamp stands for a missing timestamp column or an unparseable
timestamp value; a `none` action stands for a missing action column. -/
structure RawRow where
  timestamp : Option Timestamp
  action : Option Action
  extras : List (String × String)
deriving DecidableEq, Repr

/-- Modelled from the spec: a raw row becomes an Event Record exactly when
both required columns are present and parseable; otherwise the row is
malformed and is skipped. -/
def rowToEvent (r : RawRow) : Option EventRecord :=
  match r.timestamp, r.action with
  | some t, some a => some ⟨t, a, r.extras⟩
  | _, _ => none

/-- The distinct timestamp keys occurring in a record list, in ascending
order. -/
def sortedTimestampKeys (l : List EventRecord) : List Nat :=
  List.insertionSort (· ≤ ·) ((l.map (fun e => e.timestamp.key)).dedup)

/-- Modelled from the spec: stable sort of the concatenated rows by
timestamp, realised by listing the distinct timestamps in ascending order
and emitting, for each, the records carrying it in their original relative
order (a counting-sort formulation of a stable sort by timestamp). -/
def sortByTimestamp (l : List EventRecord) : List EventRecord :=
  (sortedTimestampKeys l).flatMap (fun k => l.filter (fun e => e.timestamp.key = k))

/-- Modelled from the spec: the Log Parser's fatal error when zero valid
rows result. -/
inductive LogParseError where
  | emptyLog
deriving DecidableEq, Repr

/-- The Log Parser's output: the ordered, deduplicated Event Record
sequence together with the count of malformed (skipped) rows. -/
structure ParseResult where
  events : List EventRecord
  malformedCount : Nat
deriving DecidableEq, Repr

/-- Modelled from the spec: the Log Parser pipeline over the concatenated
rows of all per-day CSV files of one participant — malformed rows are
skipped and counted, the valid rows are sorted by timestamp and
exact-duplicate records are collapsed; if zero valid rows result, the
parse fails with `EmptyLogError`. -/
def parseRows (rows : List RawRow) : Except LogParseError ParseResult :=
  if (rows.filterMap rowToEvent).isEmpty then .error .emptyLog
  else .ok ⟨(sortByTimestamp (rows.filterMap rowToEvent)).dedup,
    rows.length - (rows.filterMap rowToEvent).length⟩

/-- Modelled from the spec: a ParticipantLog owns the subject identifier
and the ordered Event Record sequence of one participant. -/
structure ParticipantLogs where
  subject_id : String
  events : List EventRecord
deriving DecidableEq, Repr

/-- Modelled from the spec: the error raised when no complete sampling day
can be identified in an otherwise non-empty log. -/
inductive SegmentationError where
  | noCompleteDay
deriving DecidableEq, Repr

/-- Modelled from the spec: walk the chronological event sequence and cut a
sampling day at each day-finished marker (the marker closes the day it
belongs to); events after the last marker form a trailing partial day that
is still emitted. `acc` holds the current day's events in reverse. -/
def splitDaysAux : List EventRecord → List EventRecord → List (List EventRecord)
  | acc, [] => if acc.isEmpty then [] else [acc.reverse]
  | acc, e :: rest =>
    if e.action = Action.dayFinished then
      (acc.reverse ++ [e]) :: splitDaysAux [] rest
    else
      splitDaysAux (e :: acc) rest

/-- Modelled from the spec: `split_sampling_days` partitions the event
sequence into one sub-sequence per sampling day, bounded by day-finished
markers, and fails with `SegmentationError` when not even one complete
(marker-closed) day can be identified in a non-empty log. -/
def splitSamplingDays (log : ParticipantLogs) : Except SegmentationError (List (List EventRecord)) :=
  if log.events.isEmpty then .ok []
  else if log.events.all (fun e => e.action ≠ Action.dayFinished) then .error .noCompleteDay
  else .ok (splitDaysAux [] log.events)

/-- An awakening event at 07:00 of day `d` (minute 420). -/
def awakeningAt (d : Nat) : EventRecord := ⟨⟨d, 420⟩, .awakeningSelfReport, []⟩

/-- A barcode scan at minute `m` of day `d`. -/
def scanAt (d m : Nat) : EventRecord := ⟨⟨d, m⟩, .barcodeScanned, []⟩

/-- A day-finished marker at 10:00 of day `d`. -/
def finishAt (d : Nat) : EventRecord := ⟨⟨d, 600⟩, .dayFinished, []⟩

/-- One example sampling day: awakening at 07:00, five barcode scans at
07:05, 07:20, 07:35, 08:05, 08:35, then the day-finished marker. -/
def exDay (d : Nat) : List EventRecord :=
  [awakeningAt d, scanAt d 425, scanAt d 440, scanAt d 455, scanAt d 485,
    scanAt d 515, finishAt d]

/-- A three-day example participant log. -/
def exLog3 : ParticipantLogs := ⟨"VP01", exDay 0 ++ exDay 1 ++ exDay 2⟩

/-- The three sampling days of `exLog3`. -/
def exDays3 : List (List EventRecord) := [exDay 0, exDay 1, exDay 2]

/-- Modelled from the spec: the timestamp of the first self-reported
awakening action within one sampling day, or null when the day has none. -/
def firstAwakening (day : List EventRecord) : Option Timestamp :=
  (day.find? (fun e => e.action = Action.awakeningSelfReport)).map (fun e => e.timestamp)

/-- Modelled from the spec: `awakening_times` returns, for each sampling
day in chronological order, the timestamp of its first self-reported
awakening action if present, else null. -/
def awakeningTimes (log : ParticipantLogs) : Except SegmentationError (List (Option Timestamp)) :=
  (splitSamplingDays log).map (fun days => days.map firstAwakening)

/-- Modelled from the spec: `filter(action, date)` restricts the event
sequence to the events matching the supplied criteria — the action filter
is applied first, then the date filter, each a pass over the sequence;
a `none` criterion imposes no restriction.  The result is a new sequence;
the original log is not modified. -/
def filterLogs (log : ParticipantLogs) (action : Option Action) (date : Option Nat) :
    List EventRecord :=
  let afterAction :=
    match action with
    | none => log.events
    | some a => log.events.filter (fun e => e.action = a)
  match date with
  | none => afterAction
  | some d => afterAction.filter (fun e => e.timestamp.day = d)

/-- Whether an event matches an optional action criterion (exact tag
equality; no criterion matches everything). -/
def matchesAction (action : Option Action) (e : EventRecord) : Bool :=
  match action with
  | none => true
  | some a => e.action = a

/-- Whether an event matches an optional date criterion (calendar-day
equality of the timestamp; no criterion matches everything). -/
def matchesDate (date : Option Nat) (e : EventRecord) : Bool :=
  match date with
  | none => true
  | some d => e.timestamp.day = d

/-- Modelled from the spec: the sample-scan events of one day — barcode
scans and manual sample confirmations. -/
def scansOfDay (day : List EventRecord) : List EventRecord :=
  day.filter (fun e =>
    (e.action = Action.barcodeScanned) || (e.action = Action.manualSampleConfirmed))

/-- Modelled from the spec: the sample-type tags used in exported tables —
the awakening time, the indexed morning samples, and the distinctly tagged
optional evening sample. -/
inductive SampleType where
  | awakening
  | sample (idx : Nat)
  | evening
deriving DecidableEq, Repr

/-- The largest number of scan events found on any single day, so that the
wide-format column set is consistent across days. -/
def numSamplesMax (days : List (List EventRecord)) : Nat :=
  (days.map (fun d => (scansOfDay d).length)).foldr max 0

/-- Whether any day of the log contains an evening-sample confirmation. -/
def hasEvening (days : List (List EventRecord)) : Bool :=
  days.any (fun d => d.any (fun e => e.action = Action.eveningSampleConfirmed))

/-- Modelled from the spec: the ordered column registry of sample types,
built once for the whole log so every day carries the same columns. -/
def sampleTypeRegistry (days : List (List EventRecord)) : List SampleType :=
  SampleType.awakening ::
    ((List.range (numSamplesMax days)).map SampleType.sample ++
      (if hasEvening days then [SampleType.evening] else []))

/-- Modelled from the spec: the exported cell for one day and one sample
type — a day with no matching event yields null, never a dropped cell. -/
def cellValue (day : List EventRecord) : SampleType → Option Timestamp
  | .awakening => firstAwakening day
  | .sample i => (scansOfDay day)[i]?.map (fun e => e.timestamp)
  | .evening =>
    (day.find? (fun e => e.action = Action.eveningSampleConfirmed)).map
      (fun e => e.timestamp)

/-- Modelled from the spec: long-format export — one row per
(day, sample-type) pair carrying the subject, the day index, the sample
type and the (possibly null) timestamp. -/
def exportTimesLong (log : ParticipantLogs) :
    Except SegmentationError (List (String × Nat × SampleType × Option Timestamp)) :=
  (splitSamplingDays log).map (fun days =>
    days.enum.flatMap (fun p =>
      (sampleTypeRegistry days).map (fun st => (log.subject_id, p.1, st, cellValue p.2 st))))

/-- The wide-format column headers: one (day, sample-type) column per
registry entry and day. -/
def wideColumns (days : List (List EventRecord)) : List (Nat × SampleType) :=
  days.enum.flatMap (fun p => (sampleTypeRegistry days).map (fun st => (p.1, st)))

/-- The wide-format cells of the participant's single row, aligned with
`wideColumns`. -/
def wideCells (days : List (List EventRecord)) : List (Option Timestamp) :=
  days.enum.flatMap (fun p => (sampleTypeRegistry days).map (fun st => cellValue p.2 st))

/-- Modelled from the spec: wide-format export — one row per participant,
with the sample-type/day combinations pivoted into columns. -/
def exportTimesWide (log : ParticipantLogs) :
    Except SegmentationError (String × List (Nat × SampleType) × List (Option Timestamp)) :=
  (splitSamplingDays log).map (fun days => (log.subject_id, wideColumns days, wideCells days))

/-- Un-pivoting a wide row: pair each column header with its cell and emit
the long-format tuples. -/
def unpivot (row : String × List (Nat × SampleType) × List (Option Timestamp)) :
    List (String × Nat × SampleType × Option Timestamp) :=
  (row.2.1.zip row.2.2).map (fun c => (row.1, c.1.1, c.1.2, c.2))

/-- Modelled from the spec: the per-participant failures surfaced during a
cohort scan — a participant whose log has no valid rows, or whose archive
cannot be read. -/
inductive LogFileError where
  | emptyLog
  | extraction
deriving DecidableEq, Repr

/-- Modelled from the spec: one candidate entry found while scanning the
cohort base directory — its participant identifier, whether the archive is
unreadable (corrupt), and the raw CSV rows it contains. -/
structure FolderEntry where
  subjectId : String
  corrupt : Bool
  rows : List RawRow
deriving DecidableEq, Repr

/-- Modelled from the spec: the isolated parse attempt for one matching
entry — an unreadable archive is a fatal `ExtractionError` for that
participant, and a parse yielding zero valid rows is its `EmptyLogError`. -/
def parseEntry (e : FolderEntry) : Except LogFileError ParticipantLogs :=
  if e.corrupt then .error .extraction
  else
    match parseRows e.rows with
    | .error _ => .error .emptyLog
    | .ok r => .ok ⟨e.subjectId, r.events⟩

/-- Modelled from the spec: a StudyLog owns the mapping from participant
identifier to ParticipantLog. -/
structure StudyLogs where
  participants : List (String × ParticipantLogs)
deriving DecidableEq, Repr

/-- Boolean success test for an `Except` value. -/
def exceptIsOk {ε α : Type} : Except ε α → Bool
  | .ok _ => true
  | .error _ => false

/-- Modelled from the spec: `StudyLogs.from_folder` scans the candidate
entries, keeps every successfully parsed participant in the mapping, and
records each failed entry in the failure list instead of aborting the
scan. -/
def from_folder (entries : List FolderEntry) : StudyLogs × List (String × LogFileError) :=
  (⟨entries.filterMap (fun e =>
      match parseEntry e with
      | .ok p => some (e.subjectId, p)
      | .error _ => none)⟩,
   entries.filterMap (fun e =>
      match parseEntry e with
      | .ok _ => none
      | .error err => some (e.subjectId, err)))

/-- A cohort folder with five readable participant entries and one corrupt
archive. -/
def exEntries6 : List FolderEntry :=
  [⟨"VP1", false, [⟨some ⟨0, 1⟩, some .appOpened, []⟩]⟩,
   ⟨"VP2", false, [⟨some ⟨0, 2⟩, some .appOpened, []⟩]⟩,
   ⟨"VP3", false, [⟨some ⟨0, 3⟩, some .appOpened, []⟩]⟩,
   ⟨"VP4", false, [⟨some ⟨0, 4⟩, some .appOpened, []⟩]⟩,
   ⟨"VP5", false, [⟨some ⟨0, 5⟩, some .appOpened, []⟩]⟩,
   ⟨"VP6", true, []⟩]

/-- Modelled from the spec and the example notebook: the recognized
per-participant metadata attributes.  The notebook — genuine repository
code — reads `log.android_version` and calls
`get_metadata_stats("android_version")`, so the OS-version attribute is
named `android_version`, not `os_version` as the specification writes. -/
def metadataFields : List String :=
  ["app_version", "android_version", "phone_model", "phone_manufacturer"]

/-- The dedicated metadata-report event of a participant log, if any. -/
def metadataEvent (log : ParticipantLogs) : Option EventRecord :=
  log.events.find? (fun e => e.action = Action.metadataReported)

/-- Modelled from the spec: a metadata attribute is extracted from the
extras of the dedicated metadata-report event when present, else null. -/
def metadataValue (log : ParticipantLogs) (field : String) : Option String :=
  (metadataEvent log).bind
    (fun e => (e.extras.find? (fun kv => kv.1 = field)).map (fun kv => kv.2))

/-- The participant's app version, from the metadata-report event. -/
def app_version (log : ParticipantLogs) : Option String :=
  metadataValue log "app_version"

/-- The participant's Android (OS) version, from the metadata-report
event. -/
def android_version (log : ParticipantLogs) : Option String :=
  metadataValue log "android_version"

/-- The participant's phone model, from the metadata-report event. -/
def phone_model (log : ParticipantLogs) : Option String :=
  metadataValue log "phone_model"

/-- The participant's phone manufacturer, from the metadata-report
event. -/
def phone_manufacturer (log : ParticipantLogs) : Option String :=
  metadataValue log "phone_manufacturer"

/-- Modelled from the spec: the error for an unrecognized metadata field
name. -/
inductive MetadataStatsError where
  | unknownField
deriving DecidableEq, Repr

/-- Modelled from the spec: `get_metadata_stats` — the frequency count of a
chosen metadata attribute across all participants, failing with
`UnknownFieldError` when the field is not a recognized metadata
attribute. -/
def get_metadata_stats (s : StudyLogs) (field : String) :
    Except MetadataStatsError (List (Option String × Nat)) :=
  if field ∈ metadataFields then
    .ok (((s.participants.map (fun kv => metadataValue kv.2 field)).dedup).map
      (fun v => (v, (s.participants.map (fun kv => metadataValue kv.2 field)).count v)))
  else .error .unknownField

/-- One CSV member of a participant's ZIP archive: its file name, its raw
text, and the rows that text holds. -/
structure CsvFile where
  name : String
  content : String
  rows : List RawRow
deriving DecidableEq, Repr

/-- A participant's ZIP archive: the archive file name and its CSV
members. -/
structure ZipArchive where
  name : String
  members : List CsvFile
deriving DecidableEq, Repr

/-- The surrounding filesystem, as a mapping from path to file content. -/
def FileSystem : Type := List (String × String)

/-- The sibling extraction folder of an archive: its name minus the
`.zip` extension. -/
def folderNameOf (zipName : String) : String := zipName.dropRight 4

/-- Whether the extraction folder already holds any file. -/
def folderHasFiles (fs : FileSystem) (dir : String) : Bool :=
  (fs : List (String × String)).any (fun kv => kv.1.startsWith (dir ++ "/"))

/-- Write the archive members under the extraction folder, replacing any
existing contents of that folder. -/
def extractTo (fs : FileSystem) (dir : String) (members : List CsvFile) : FileSystem :=
  (fs : List (String × String)).filter (fun kv => !(kv.1.startsWith (dir ++ "/"))) ++
    members.map (fun m => (dir ++ "/" ++ m.name, m.content))

/-- Modelled from the spec and the notebook: `ParticipantLogs.from_zip_file`
parses the concatenated rows of the archive's CSV members; only when
`extract_folder` is requested are the contents written to the sibling
folder (skipped if the folder already has files and overwriting was not
requested).  The default arguments are `extract_folder=False`,
`overwrite_unzipped_logs=False`. -/
def from_zip_file (fs : FileSystem) (zip : ZipArchive)
    (extractFolder : Bool) (overwriteUnzippedLogs : Bool) :
    Except LogParseError ParseResult × FileSystem :=
  (parseRows ((zip.members.map (fun m => m.rows)).flatten),
   if extractFolder then
     if folderHasFiles fs (folderNameOf zip.name) && !overwriteUnzippedLogs then fs
     else extractTo fs (folderNameOf zip.name) zip.members
   else fs)

theorem union_eq_right_of_subset {α : Type} [DecidableEq α] :
    ∀ {l₁ l₂ : List α}, (∀ a ∈ l₁, a ∈ l₂) → l₁ ∪ l₂ = l₂
  | [], _, _ => rfl
  | a :: t, l₂, h => by
    rw [List.cons_union,
      union_eq_right_of_subset (fun x hx => h x (List.mem_cons_of_mem _ hx)),
      List.insert_of_mem (h a (List.mem_cons_self a t))]

theorem dedup_append_self {α : Type} [DecidableEq α] (l : List α) :
    (l ++ l).dedup = l.dedup := by
  rw [List.dedup_append]
  exact union_eq_right_of_subset (fun a ha => List.mem_dedup.mpr ha)

theorem sortedTimestampKeys_append_self (l : List EventRecord) :
    sortedTimestampKeys (l ++ l) = sortedTimestampKeys l := by
  unfold sortedTimestampKeys
  rw [List.map_append, dedup_append_self]

theorem nodup_sortedTimestampKeys (l : List EventRecord) :
    (sortedTimestampKeys l).Nodup :=
  ((List.perm_insertionSort _ _).nodup_iff).mpr (List.nodup_dedup _)

theorem dedup_append_of_disjoint {α : Type} [DecidableEq α] :
    ∀ (l₁ l₂ : List α), (∀ a ∈ l₁, a ∉ l₂) →
      (l₁ ++ l₂).dedup = l₁.dedup ++ l₂.dedup
  | [], l₂, _ => by simp
  | a :: t, l₂, h => by
    have hat : ∀ x ∈ t, x ∉ l₂ := fun x hx => h x (List.mem_cons_of_mem _ hx)
    by_cases hmem : a ∈ t
    · rw [List.cons_append, List.dedup_cons_of_mem (List.mem_append_left _ hmem),
        List.dedup_cons_of_mem hmem, dedup_append_of_disjoint t l₂ hat]
    · have hnotin : a ∉ t ++ l₂ := by
        intro hc
        rcases List.mem_append.mp hc with h1 | h2
        · exact hmem h1
        · exact h a (List.mem_cons_self a t) h2
      rw [List.cons_append, List.dedup_cons_of_not_mem hnotin,
        List.dedup_cons_of_not_mem hmem, dedup_append_of_disjoint t l₂ hat,
        List.cons_append]

theorem dedup_flatMap_of_keyed {α : Type} [DecidableEq α] (key : α → Nat) :
    ∀ (keys : List Nat) (g : Nat → List α), keys.Nodup →
      (∀ k, ∀ e ∈ g k, key e = k) →
      (keys.flatMap g).dedup = keys.flatMap (fun k => (g k).dedup)
  | [], _, _, _ => by simp
  | k :: ks, g, hnd, hg => by
    have hdisj : ∀ a ∈ g k, a ∉ ks.flatMap g := by
      intro a ha hc
      rcases List.mem_flatMap.mp hc with ⟨k₂, hk₂, ha₂⟩
      have h1 : key a = k := hg k a ha
      have h2 : key a = k₂ := hg k₂ a ha₂
      have hin : k ∈ ks := by rw [← h1, h2]; exact hk₂
      exact (List.nodup_cons.mp hnd).1 hin
    rw [List.flatMap_cons, List.flatMap_cons,
      dedup_append_of_disjoint _ _ hdisj,
      dedup_flatMap_of_keyed key ks g (List.nodup_cons.mp hnd).2 hg]

theorem mem_filter_key {l : List EventRecord} {k : Nat} {e : EventRecord}
    (he : e ∈ l.filter (fun e => e.timestamp.key = k)) : e.timestamp.key = k :=
  of_decide_eq_true (List.mem_filter.mp he).2

theorem sortByTimestamp_dedup_append_self (v : List EventRecord) :
    (sortByTimestamp (v ++ v)).dedup = (sortByTimestamp v).dedup := by
  unfold sortByTimestamp
  rw [sortedTimestampKeys_append_self,
    dedup_flatMap_of_keyed (fun e => e.timestamp.key) _ _
      (nodup_sortedTimestampKeys v) (fun k e he => mem_filter_key he),
    dedup_flatMap_of_keyed (fun e => e.timestamp.key) _ _
      (nodup_sortedTimestampKeys v) (fun k e he => mem_filter_key he)]
  exact congrArg _ (funext fun k => by rw [List.filter_append, dedup_append_self])

/-- C2: parsing is deduplicating and idempotent — parsing the concatenation
of a row list with an identical copy of itself yields the same Event Record
sequence (and the same success/failure outcome) as parsing the input once,
so two overlapping identical exports contain exactly the unique events. -/
theorem parseRows_self_append_events (rows : List RawRow) :
    (parseRows (rows ++ rows)).map ParseResult.events =
      (parseRows rows).map ParseResult.events := by
  unfold parseRows
  rw [List.filterMap_append]
  cases hcase : rows.filterMap rowToEvent with
  | nil => simp
  | cons a t =>
    show (Except.ok ((sortByTimestamp ((a :: t) ++ (a :: t))).dedup) :
        Except LogParseError (List EventRecord)) =
      Except.ok ((sortByTimestamp (a :: t)).dedup)
    exact congrArg Except.ok (sortByTimestamp_dedup_append_self (a :: t))

theorem length_filterMap_eq_countP {α β : Type} (f : α → Option β) :
    ∀ l : List α, (l.filterMap f).length = l.countP (fun a => (f a).isSome)
  | [] => rfl
  | a :: t => by
    cases hfa : f a with
    | none => simp [List.filterMap_cons, List.countP_cons, hfa,
        length_filterMap_eq_countP f t]
    | some b => simp [List.filterMap_cons, List.countP_cons, hfa,
        length_filterMap_eq_countP f t]

/-- C5: the Log Parser fails with `EmptyLogError` exactly when zero valid
rows result; otherwise rows missing required columns or with unparseable
timestamps are skipped and counted as malformed while parsing succeeds on
the remaining rows. -/
theorem parseRows_empty_iff (rows : List RawRow) :
    (parseRows rows = .error .emptyLog ↔ rows.filterMap rowToEvent = []) ∧
    (rows.filterMap rowToEvent ≠ [] →
      parseRows rows = .ok ⟨(sortByTimestamp (rows.filterMap rowToEvent)).dedup,
        rows.countP (fun row => (rowToEvent row).isNone)⟩) := by
  have hcount : rows.length - (rows.filterMap rowToEvent).length =
      rows.countP (fun row => (rowToEvent row).isNone) := by
    have h1 := length_filterMap_eq_countP rowToEvent rows
    have h2 := List.length_eq_countP_add_countP
      (fun row => (rowToEvent row).isSome) (l := rows)
    have h3 : rows.countP (fun row => ¬(rowToEvent row).isSome) =
        rows.countP (fun row => (rowToEvent row).isNone) := by
      apply List.countP_congr
      intro row _
      cases rowToEvent row <;> simp
    omega
  constructor
  · constructor
    · intro h
      cases hcase : rows.filterMap rowToEvent with
      | nil => rfl
      | cons a t =>
        unfold parseRows at h
        rw [hcase] at h
        simp at h
    · intro h
      unfold parseRows
      rw [h]
      rfl
  · intro h
    cases hcase : rows.filterMap rowToEvent with
    | nil => exact absurd hcase h
    | cons a t =>
      rw [hcase] at hcount
      unfold parseRows
      rw [hcase]
      show Except.ok
          (⟨(sortByTimestamp (a :: t)).dedup, rows.length - (a :: t).length⟩ : ParseResult) = _
      rw [hcount]

/-- Witness for C5: a CSV with zero data rows fails with `EmptyLogError`,
while a single valid row parses successfully with zero malformed rows. -/
theorem parseRows_empty_iff_witness :
    parseRows ([] : List RawRow) = .error .emptyLog ∧
    parseRows [({ timestamp := some ⟨0, 5⟩, action := some .appOpened, extras := [] } : RawRow)] =
      .ok ⟨[⟨⟨0, 5⟩, .appOpened, []⟩], 0⟩ := by
  refine ⟨(parseRows_empty_iff []).1.mpr rfl, ?_⟩
  have h := (parseRows_empty_iff
    [({ timestamp := some ⟨0, 5⟩, action := some .appOpened, extras := [] } : RawRow)]).2
    (by decide)
  rw [h]
  rfl

theorem flatten_splitDaysAux :
    ∀ (l acc : List EventRecord), (splitDaysAux acc l).flatten = acc.reverse ++ l
  | [], acc => by
    cases acc with
    | nil => simp [splitDaysAux]
    | cons a t => simp [splitDaysAux]
  | e :: rest, acc => by
    by_cases h : e.action = Action.dayFinished
    · simp only [splitDaysAux, if_pos h, List.flatten_cons, flatten_splitDaysAux rest []]
      simp
    · simp only [splitDaysAux, if_neg h, flatten_splitDaysAux rest (e :: acc)]
      simp

/-- C1: on success, `split_sampling_days` partitions the event sequence —
the concatenation of the per-day sub-sequences in order reproduces the
original event sequence exactly, and hence the union of the sub-sequences
(as a set) equals the original event set: no event is lost or duplicated. -/
theorem splitSamplingDays_partition (log : ParticipantLogs) (days : List (List EventRecord))
    (h : splitSamplingDays log = .ok days) :
    days.flatten = log.events ∧
      (∀ e : EventRecord, (∃ d ∈ days, e ∈ d) ↔ e ∈ log.events) := by
  have hf : days.flatten = log.events := by
    unfold splitSamplingDays at h
    by_cases h0 : log.events.isEmpty = true
    · rw [if_pos h0] at h
      injection h with h
      subst h
      cases hev : log.events with
      | nil => simp
      | cons a t => rw [hev] at h0; simp at h0
    · rw [if_neg h0] at h
      by_cases h1 : log.events.all (fun e => e.action ≠ Action.dayFinished) = true
      · rw [if_pos h1] at h
        exact absurd h (by simp)
      · rw [if_neg h1] at h
        injection h with h
        subst h
        rw [flatten_splitDaysAux log.events []]
        simp
  refine ⟨hf, fun e => ?_⟩
  rw [← hf, List.mem_flatten]

theorem splitDaysAux_no_marker :
    ∀ (l acc : List EventRecord), (∀ e ∈ l, e.action ≠ Action.dayFinished) → l ≠ [] →
      splitDaysAux acc l = [acc.reverse ++ l]
  | [], _, _, hne => absurd rfl hne
  | e :: rest, acc, h, _ => by
    have he : ¬ e.action = Action.dayFinished := h e (List.mem_cons_self e rest)
    simp only [splitDaysAux, if_neg he]
    cases rest with
    | nil => simp [splitDaysAux]
    | cons f rest₂ =>
      rw [splitDaysAux_no_marker (f :: rest₂) (e :: acc)
        (fun x hx => h x (List.mem_cons_of_mem _ hx)) (List.cons_ne_nil f rest₂)]
      simp

theorem splitDaysAux_marker_append :
    ∀ (init acc : List EventRecord) (m : EventRecord) (tail : List EventRecord),
      m.action = Action.dayFinished →
      ∃ chunks, splitDaysAux acc (init ++ m :: tail) = chunks ++ splitDaysAux [] tail
  | [], acc, m, tail, hm =>
    ⟨[acc.reverse ++ [m]], by simp [splitDaysAux, hm]⟩
  | e :: init₂, acc, m, tail, hm => by
    by_cases he : e.action = Action.dayFinished
    · obtain ⟨chunks, hc⟩ := splitDaysAux_marker_append init₂ [] m tail hm
      exact ⟨(acc.reverse ++ [e]) :: chunks, by simp [splitDaysAux, he, hc]⟩
    · obtain ⟨chunks, hc⟩ := splitDaysAux_marker_append init₂ (e :: acc) m tail hm
      exact ⟨chunks, by simp [splitDaysAux, he, hc]⟩

/-- C8: `split_sampling_days` fails with `SegmentationError` exactly when a
non-empty log contains no complete (day-finished-closed) sampling day; and
on success a trailing partial day after the last day-finished marker is
still emitted as the final day rather than discarded. -/
theorem splitSamplingDays_error_and_trailing :
    (∀ log : ParticipantLogs, log.events ≠ [] →
      ((∃ err, splitSamplingDays log = .error err) ↔
        ∀ e ∈ log.events, e.action ≠ Action.dayFinished)) ∧
    (∀ (log : ParticipantLogs) (init m tail),
      log.events = init ++ m :: tail → m.action = Action.dayFinished →
      (∀ e ∈ tail, e.action ≠ Action.dayFinished) → tail ≠ [] →
      ∃ days, splitSamplingDays log = .ok days ∧ days.getLast? = some tail) := by
  constructor
  · intro log hne
    have h0 : ¬ log.events.isEmpty = true := by
      cases hev : log.events with
      | nil => exact absurd hev hne
      | cons a t => simp
    unfold splitSamplingDays
    rw [if_neg h0]
    by_cases h1 : log.events.all (fun e => e.action ≠ Action.dayFinished) = true
    · rw [if_pos h1]
      constructor
      · intro _ e he
        exact of_decide_eq_true (List.all_eq_true.mp h1 e he)
      · intro _
        exact ⟨.noCompleteDay, rfl⟩
    · rw [if_neg h1]
      constructor
      · rintro ⟨err, herr⟩
        exact absurd herr (by simp)
      · intro hall
        exact absurd (List.all_eq_true.mpr (fun e he => decide_eq_true (hall e he))) h1
  · intro log init m tail hev hm htail hne
    have h0 : ¬ log.events.isEmpty = true := by
      rw [hev]
      cases init <;> simp
    have h1 : ¬ log.events.all (fun e => e.action ≠ Action.dayFinished) = true := by
      intro hall
      have hmem : m ∈ log.events := by
        rw [hev]
        exact List.mem_append_right _ (List.mem_cons_self m tail)
      exact of_decide_eq_true (List.all_eq_true.mp hall m hmem) hm
    obtain ⟨chunks, hc⟩ := splitDaysAux_marker_append init [] m tail hm
    refine ⟨splitDaysAux [] log.events, ?_, ?_⟩
    · unfold splitSamplingDays
      rw [if_neg h0, if_neg h1]
    · rw [hev, hc, splitDaysAux_no_marker tail [] htail hne]
      simp only [List.reverse_nil, List.nil_append]
      exact List.getLast?_concat chunks

/-- Witness for C1: the three-day example log splits into its three days,
whose concatenation is the original sequence. -/
theorem splitSamplingDays_partition_witness :
    exDays3.flatten = exLog3.events :=
  (splitSamplingDays_partition exLog3 exDays3 rfl).1

/-- Witness for C8: a log whose single complete day is followed by a
trailing partial day still emits the trailing events as the final day. -/
theorem splitSamplingDays_error_and_trailing_witness :
    ∃ days, splitSamplingDays ⟨"VP02", [finishAt 0, scanAt 1 400]⟩ = .ok days ∧
      days.getLast? = some [scanAt 1 400] :=
  splitSamplingDays_error_and_trailing.2 ⟨"VP02", [finishAt 0, scanAt 1 400]⟩
    [] (finishAt 0) [scanAt 1 400] rfl rfl (by decide) (by decide)

theorem find?_append_first {α : Type} (p : α → Bool) :
    ∀ (pre : List α) (e : α) (post : List α), (∀ x ∈ pre, ¬ p x = true) → p e = true →
      (pre ++ e :: post).find? p = some e
  | [], e, post, _, hp => by
    rw [List.nil_append]
    exact List.find?_cons_of_pos post hp
  | a :: pre₂, e, post, hpre, hp => by
    rw [List.cons_append, List.find?_cons_of_neg _ (hpre a (List.mem_cons_self a pre₂))]
    exact find?_append_first p pre₂ e post
      (fun x hx => hpre x (List.mem_cons_of_mem _ hx)) hp

/-- C7: on success, `awakening_times` has exactly one entry per sampling
day, in day order; an entry is null exactly when its day has no
self-reported awakening action, and otherwise it is the timestamp of the
first such action of the day. -/
theorem awakeningTimes_spec (log : ParticipantLogs) (days : List (List EventRecord))
    (h : splitSamplingDays log = .ok days) :
    ∃ ts : List (Option Timestamp),
      awakeningTimes log = .ok ts ∧
      ts.length = days.length ∧
      (∀ (i : Nat) (hi : i < days.length) (hti : i < ts.length),
        (ts.get ⟨i, hti⟩ = none ↔
          ∀ e ∈ days.get ⟨i, hi⟩, e.action ≠ Action.awakeningSelfReport) ∧
        (∀ (pre : List EventRecord) (e : EventRecord) (post : List EventRecord),
          days.get ⟨i, hi⟩ = pre ++ e :: post →
          e.action = Action.awakeningSelfReport →
          (∀ x ∈ pre, x.action ≠ Action.awakeningSelfReport) →
          ts.get ⟨i, hti⟩ = some e.timestamp)) := by
  refine ⟨days.map firstAwakening, ?_, List.length_map days firstAwakening, ?_⟩
  · unfold awakeningTimes
    rw [h]
    rfl
  · intro i hi hti
    have hget : (days.map firstAwakening).get ⟨i, hti⟩ = firstAwakening (days.get ⟨i, hi⟩) :=
      List.getElem_map firstAwakening
    constructor
    · rw [hget]
      unfold firstAwakening
      constructor
      · intro hnone e he
        cases hfind : (days.get ⟨i, hi⟩).find? (fun e => e.action = Action.awakeningSelfReport) with
        | none =>
          have := List.find?_eq_none.mp hfind e he
          intro hc
          exact this (decide_eq_true hc)
        | some x =>
          rw [hfind] at hnone
          simp at hnone
      · intro hall
        rw [List.find?_eq_none.mpr (fun x hx hc => hall x hx (of_decide_eq_true hc))]
        rfl
    · intro pre e post hsplit he hpre
      rw [hget]
      unfold firstAwakening
      rw [hsplit, find?_append_first _ pre e post
        (fun x hx hc => hpre x hx (of_decide_eq_true hc)) (decide_eq_true he)]
      rfl

/-- Witness for C7: the three-day example log (awakening at 07:00 each day
followed by five barcode scans) yields exactly three awakening timestamps,
07:00 on each of the three days. -/
theorem awakeningTimes_spec_witness :
    (∃ ts : List (Option Timestamp),
      awakeningTimes exLog3 = .ok ts ∧
      ts.length = exDays3.length ∧
      (∀ (i : Nat) (hi : i < exDays3.length) (hti : i < ts.length),
        (ts.get ⟨i, hti⟩ = none ↔
          ∀ e ∈ exDays3.get ⟨i, hi⟩, e.action ≠ Action.awakeningSelfReport) ∧
        (∀ (pre : List EventRecord) (e : EventRecord) (post : List EventRecord),
          exDays3.get ⟨i, hi⟩ = pre ++ e :: post →
          e.action = Action.awakeningSelfReport →
          (∀ x ∈ pre, x.action ≠ Action.awakeningSelfReport) →
          ts.get ⟨i, hti⟩ = some e.timestamp))) ∧
    awakeningTimes exLog3 = .ok [some ⟨0, 420⟩, some ⟨1, 420⟩, some ⟨2, 420⟩] :=
  ⟨awakeningTimes_spec exLog3 exDays3 rfl, rfl⟩

/-- C6: `filter` returns exactly the events matching all supplied criteria
(logical AND when both are given), action by exact tag equality and date by
calendar-day equality independent of the time of day; with no criteria the
sequence is returned unrestricted, and an empty result is an ordinary
value, not an error. -/
theorem filterLogs_spec (log : ParticipantLogs) (action : Option Action) (date : Option Nat) :
    filterLogs log action date =
      log.events.filter (fun e => matchesAction action e && matchesDate date e) ∧
    (∀ (d : Nat) (day m₁ m₂ : Nat) (a : Action) (x : List (String × String)),
      matchesDate (some d) ⟨⟨day, m₁⟩, a, x⟩ = matchesDate (some d) ⟨⟨day, m₂⟩, a, x⟩) := by
  constructor
  · cases action with
    | none =>
      cases date with
      | none =>
        show log.events = log.events.filter _
        rw [List.filter_eq_self.mpr]
        intro e _
        rfl
      | some d => rfl
    | some a =>
      cases date with
      | none =>
        show log.events.filter _ = log.events.filter _
        apply List.filter_congr
        intro e _
        show decide (e.action = a) = (decide (e.action = a) && true)
        rw [Bool.and_true]
      | some d =>
        show (log.events.filter _).filter _ = log.events.filter _
        rw [List.filter_filter]
        apply List.filter_congr
        intro e _
        exact Bool.and_comm (decide (e.timestamp.day = d)) (decide (e.action = a))
  · intro d day m₁ m₂ a x
    rfl

theorem zip_flatMap_eq {α β γ : Type} (f : α → List β) (g : α → List γ)
    (h : ∀ a, (f a).length = (g a).length) :
    ∀ l : List α, (l.flatMap f).zip (l.flatMap g) = l.flatMap (fun a => (f a).zip (g a))
  | [] => rfl
  | a :: t => by
    rw [List.flatMap_cons, List.flatMap_cons, List.zip_append (h a),
      zip_flatMap_eq f g h t, List.flatMap_cons]

theorem length_flatMap_const {α β : Type} (f : α → List β) (c : Nat)
    (h : ∀ a, (f a).length = c) :
    ∀ l : List α, (l.flatMap f).length = l.length * c
  | [] => by simp
  | a :: t => by
    rw [List.flatMap_cons, List.length_append, h a, length_flatMap_const f c h t,
      List.length_cons, Nat.succ_mul, Nat.add_comm]

/-- C4: on success, un-pivoting the wide-format export reproduces exactly
the long-format export's (subject, day, sample-type, timestamp) tuples,
and both formats carry one (possibly null) cell for every
day × sample-type combination — days · registry entries — so missing
values appear as nulls and are never dropped. -/
theorem exportTimes_roundTrip (log : ParticipantLogs) (days : List (List EventRecord))
    (h : splitSamplingDays log = .ok days) :
    ∃ wide longRows,
      exportTimesWide log = .ok wide ∧
      exportTimesLong log = .ok longRows ∧
      unpivot wide = longRows ∧
      wide.2.1.length = days.length * (sampleTypeRegistry days).length ∧
      wide.2.2.length = days.length * (sampleTypeRegistry days).length ∧
      longRows.length = days.length * (sampleTypeRegistry days).length := by
  refine ⟨(log.subject_id, wideColumns days, wideCells days),
    days.enum.flatMap (fun p =>
      (sampleTypeRegistry days).map (fun st => (log.subject_id, p.1, st, cellValue p.2 st))),
    ?_, ?_, ?_, ?_, ?_, ?_⟩
  · unfold exportTimesWide
    rw [h]
    rfl
  · unfold exportTimesLong
    rw [h]
    rfl
  · unfold unpivot wideColumns wideCells
    rw [zip_flatMap_eq _ _ (fun p => by rw [List.length_map, List.length_map]),
      List.map_flatMap]
    exact List.flatMap_congr (fun p _ => by
      rw [List.zip_map', List.map_map]
      exact List.map_congr_left (fun st _ => rfl))
  · unfold wideColumns
    rw [length_flatMap_const _ (sampleTypeRegistry days).length
      (fun p => List.length_map _ _) days.enum, List.enum_length]
  · unfold wideCells
    rw [length_flatMap_const _ (sampleTypeRegistry days).length
      (fun p => List.length_map _ _) days.enum, List.enum_length]
  · rw [length_flatMap_const _ (sampleTypeRegistry days).length
      (fun p => List.length_map _ _) days.enum, List.enum_length]

/-- Witness for C4: the round-trip and cardinality properties at the
three-day example log. -/
theorem exportTimes_roundTrip_witness :
    ∃ wide longRows,
      exportTimesWide exLog3 = .ok wide ∧
      exportTimesLong exLog3 = .ok longRows ∧
      unpivot wide = longRows ∧
      wide.2.1.length = exDays3.length * (sampleTypeRegistry exDays3).length ∧
      wide.2.2.length = exDays3.length * (sampleTypeRegistry exDays3).length ∧
      longRows.length = exDays3.length * (sampleTypeRegistry exDays3).length :=
  exportTimes_roundTrip exLog3 exDays3 rfl

/-- C3: `from_folder` has partial-success semantics — the mapping holds
exactly the entries whose parse succeeded, the failure list exactly the
entries whose parse failed (reported to the caller), the two counts sum to
the number of scanned entries, and the scan is a total function: one bad
entry never aborts it. -/
theorem from_folder_partial_success (entries : List FolderEntry) :
    (from_folder entries).1.participants.length =
      entries.countP (fun e => exceptIsOk (parseEntry e)) ∧
    (from_folder entries).2.length =
      entries.countP (fun e => !exceptIsOk (parseEntry e)) ∧
    (from_folder entries).1.participants.length + (from_folder entries).2.length =
      entries.length ∧
    (∀ (id : String) (p : ParticipantLogs),
      (id, p) ∈ (from_folder entries).1.participants ↔
        ∃ e ∈ entries, e.subjectId = id ∧ parseEntry e = .ok p) ∧
    (∀ (id : String) (err : LogFileError),
      (id, err) ∈ (from_folder entries).2 ↔
        ∃ e ∈ entries, e.subjectId = id ∧ parseEntry e = .error err) := by
  have hlen1 : (from_folder entries).1.participants.length =
      entries.countP (fun e => exceptIsOk (parseEntry e)) := by
    show (entries.filterMap _).length = _
    rw [length_filterMap_eq_countP]
    apply List.countP_congr
    intro e _
    cases parseEntry e <;> simp [exceptIsOk]
  have hlen2 : (from_folder entries).2.length =
      entries.countP (fun e => !exceptIsOk (parseEntry e)) := by
    show (entries.filterMap _).length = _
    rw [length_filterMap_eq_countP]
    apply List.countP_congr
    intro e _
    cases parseEntry e <;> simp [exceptIsOk]
  refine ⟨hlen1, hlen2, ?_, ?_, ?_⟩
  · have hsum := List.length_eq_countP_add_countP
      (fun e => exceptIsOk (parseEntry e)) (l := entries)
    have hneg : entries.countP (fun e => ¬ exceptIsOk (parseEntry e)) =
        entries.countP (fun e => !exceptIsOk (parseEntry e)) := by
      apply List.countP_congr
      intro e _
      cases parseEntry e <;> simp [exceptIsOk]
    omega
  · intro id p
    constructor
    · intro hmem
      rcases List.mem_filterMap.mp hmem with ⟨e, he, hfe⟩
      refine ⟨e, he, ?_⟩
      cases hpe : parseEntry e with
      | ok q =>
        rw [hpe] at hfe
        simp only at hfe
        injection hfe with h1
        cases h1
        exact ⟨rfl, rfl⟩
      | error err =>
        rw [hpe] at hfe
        simp at hfe
    · rintro ⟨e, he, hid, hpe⟩
      apply List.mem_filterMap.mpr
      refine ⟨e, he, ?_⟩
      simp only [hpe]
      rw [hid]
  · intro id err
    constructor
    · intro hmem
      rcases List.mem_filterMap.mp hmem with ⟨e, he, hfe⟩
      refine ⟨e, he, ?_⟩
      cases hpe : parseEntry e with
      | ok q =>
        rw [hpe] at hfe
        simp at hfe
      | error err₂ =>
        rw [hpe] at hfe
        simp only at hfe
        injection hfe with h1
        cases h1
        exact ⟨rfl, rfl⟩
    · rintro ⟨e, he, hid, hpe⟩
      apply List.mem_filterMap.mpr
      refine ⟨e, he, ?_⟩
      simp only [hpe]
      rw [hid]

/-- Witness for C3: five valid entries and one corrupt archive yield a
mapping of exactly five participants plus one reported failure. -/
theorem from_folder_partial_success_witness :
    (from_folder exEntries6).1.participants.length = 5 ∧
    (from_folder exEntries6).2.length = 1 := by
  have h := from_folder_partial_success exEntries6
  exact ⟨h.1.trans (by rfl), h.2.1.trans (by rfl)⟩

/-- Counterexample for C9: the claim's recognized-field set names
`os_version`, but the repository's example notebook successfully calls
`get_metadata_stats("android_version")` — a field outside the claim's set —
while `os_version` itself is rejected. -/
theorem get_metadata_stats_os_version_counterexample :
    ("android_version" ∉ ["app_version", "os_version", "phone_model", "phone_manufacturer"]) ∧
    get_metadata_stats ⟨[]⟩ "android_version" = .ok [] ∧
    get_metadata_stats ⟨[]⟩ "os_version" = .error .unknownField :=
  ⟨by decide, rfl, rfl⟩

/-- C9 (amended): each participant exposes exactly the metadata attributes
`app_version`, `android_version`, `phone_model`, `phone_manufacturer`,
null when no metadata-report event is present; `get_metadata_stats`
succeeds exactly on these recognized attribute names and fails with
`UnknownFieldError` on every other field. -/
theorem metadata_attributes_spec :
    (∀ log : ParticipantLogs,
      (∀ e ∈ log.events, e.action ≠ Action.metadataReported) →
      app_version log = none ∧ android_version log = none ∧
        phone_model log = none ∧ phone_manufacturer log = none) ∧
    (∀ (s : StudyLogs) (field : String),
      ((∃ r, get_metadata_stats s field = .ok r) ↔ field ∈ metadataFields) ∧
      (get_metadata_stats s field = .error .unknownField ↔ field ∉ metadataFields)) := by
  constructor
  · intro log h
    have hev : metadataEvent log = none :=
      List.find?_eq_none.mpr (fun x hx hc => h x hx (of_decide_eq_true hc))
    refine ⟨?_, ?_, ?_, ?_⟩ <;> (show (metadataEvent log).bind _ = none) <;> rw [hev] <;> rfl
  · intro s field
    by_cases hf : field ∈ metadataFields
    · unfold get_metadata_stats
      rw [if_pos hf]
      exact ⟨⟨fun _ => hf, fun _ => ⟨_, rfl⟩⟩,
        ⟨fun hc => absurd hc (by simp), fun hc => absurd hf hc⟩⟩
    · unfold get_metadata_stats
      rw [if_neg hf]
      refine ⟨⟨fun hc => ?_, fun hc => absurd hc hf⟩, ⟨fun _ => hf, fun _ => rfl⟩⟩
      rcases hc with ⟨r, hr⟩
      exact absurd hr (by simp)

/-- Witness for C9: a log with no metadata-report event exposes four null
metadata attributes, and the recognized field `android_version` yields
statistics rather than an error. -/
theorem metadata_attributes_spec_witness :
    (app_version ⟨"VP9", [⟨⟨0, 1⟩, .appOpened, []⟩]⟩ = none ∧
      android_version ⟨"VP9", [⟨⟨0, 1⟩, .appOpened, []⟩]⟩ = none ∧
      phone_model ⟨"VP9", [⟨⟨0, 1⟩, .appOpened, []⟩]⟩ = none ∧
      phone_manufacturer ⟨"VP9", [⟨⟨0, 1⟩, .appOpened, []⟩]⟩ = none) ∧
    (∃ r, get_metadata_stats ⟨[]⟩ "android_version" = .ok r) :=
  ⟨metadata_attributes_spec.1 ⟨"VP9", [⟨⟨0, 1⟩, .appOpened, []⟩]⟩ (by decide),
    (metadata_attributes_spec.2 ⟨[]⟩ "android_version").1.mpr (by decide)⟩

/-- C10: with the default arguments (`extract_folder=False`,
`overwrite_unzipped_logs=False`), `from_zip_file` leaves the filesystem
exactly as it was — no extraction folder is created and nothing is
overwritten — and its parse result reads only the archive, independent of
the surrounding filesystem. -/
theorem from_zip_file_default_no_side_effects (fs : FileSystem) (zip : ZipArchive) :
    (from_zip_file fs zip false false).2 = fs ∧
    (∀ fs₂ : FileSystem,
      (from_zip_file fs zip false false).1 = (from_zip_file fs₂ zip false false).1) ∧
    (from_zip_file fs zip false false).1 =
      parseRows ((zip.members.map (fun m => m.rows)).flatten) :=
  ⟨rfl, fun _ => rfl, rfl⟩

end Carwatch

